import Mathlib

/-!
Verification development for the video-conversion route of the
robot-data-visualizer repository (`src/app/api/video/route.ts`).

The embedding models the server route's pure data transformations and its
filesystem / subprocess effects explicitly:

* JS numbers appearing in `tensor_data` are modelled as rationals (`ℚ`);
  `Math.floor` is `Rat.floor`.  A read past the end of an array
  (`tensor_data[i]` with `i ≥ length`, which yields `undefined` and is
  normalised by `|| 0`) is modelled by `List.getD _ _ 0`.
* The filesystem is an association list from path strings to file data.
* `ffmpeg` is modelled at the boundary described by the command the route
  builds: it reads the staged files matching `frame_%06d.ppm` starting at
  index 0 in consecutive order and produces a container at the fixed input
  frame rate 30; whether the process succeeds is an oracle parameter.
* `writeFileSync(path, string)` writes the string with Node's default
  `utf8` encoding, so each code point of the content string is UTF-8
  encoded (`utf8Encode` below); code points in `[128, 255]` occupy two
  bytes.
* the route's `for (let i = 0; i < len; i += channels)` loop does not
  terminate in JS when `channels = 0` and the data is nonempty; the model
  returns `[]` in that case and theorems about the loop assume
  `0 < channels`.
-/

namespace VideoRoute

/-- Frame record of the `VideoTensorData` payload schema (per-frame
`width`/`height`/`channels` are carried but, as in the source, never consulted
by the encoder).  The ISO-8601 `timestamp` string is represented by the
millisecond clock value it was built from (`Date.now() + frameIndex * 33`). -/
structure Frame where
  frame_index : ℕ
  timestamp : ℕ
  tensor_data : List ℚ
  width : ℕ
  height : ℕ
  channels : ℕ
deriving DecidableEq

instance : Inhabited Frame := ⟨⟨0, 0, [], 0, 0, 0⟩⟩

/-- Payload schema `VideoTensorData` from the route source. -/
structure VideoTensorData where
  camera_name : String
  frames : List Frame
  width : ℕ
  height : ℕ
  channels : ℕ
deriving DecidableEq

/-- JS `Math.max` on two integers. -/
def jsMax (a b : ℤ) : ℤ := if a ≤ b then b else a

/-- JS `Math.min` on two integers. -/
def jsMin (a b : ℤ) : ℤ := if a ≤ b then a else b

/-- Clamp-and-pack of one channel value:
`Math.max(0, Math.min(255, Math.floor(v)))` from the route source. -/
def packSample (v : ℚ) : ℕ :=
  (jsMax 0 (jsMin 255 (Rat.floor v))).toNat

/-- Pixel loop of `convertTensorToVideo`:
`for (let i = 0; i < frame.tensor_data.length; i += channels)` emitting
`String.fromCharCode(r, g, b)` per iteration, where the three samples are
read at `i`, `i+1`, `i+2` and a read past the end is `undefined || 0 = 0`.
The structural `fuel` argument only bounds the recursion; it is instantiated
with `data.length`, which suffices whenever `1 ≤ c`. -/
def packLoop (data : List ℚ) (c : ℕ) : ℕ → ℕ → List ℕ
  | 0, _ => []
  | fuel + 1, i =>
    if i < data.length then
      packSample (data.getD i 0) :: packSample (data.getD (i + 1) 0) ::
        packSample (data.getD (i + 2) 0) :: packLoop data c fuel (i + c)
    else []

/-- Emitted samples of one frame.  For `c = 0` the JS loop diverges on
nonempty data; the model returns `[]` there and every theorem about the loop
assumes `0 < c`. -/
def packFrom (data : List ℚ) (c : ℕ) : List ℕ :=
  if c = 0 then [] else packLoop data c data.length 0

/-- Sample bytes (as code points) of the staged image for frame `f`, using the
payload-level channel count `c` as the stride. -/
def frameBody (f : Frame) (c : ℕ) : List ℕ :=
  packFrom f.tensor_data c

/-- Code points of the PPM header string `P6\n${width} ${height}\n255\n`. -/
def ppmHeader (w h : ℕ) : List ℕ :=
  (("P6\n" ++ Nat.repr w ++ " " ++ Nat.repr h ++ "\n255\n").data).map Char.toNat

/-- UTF-8 encoding of one code point below `0x800` (all code points occurring
in a staged frame string are at most 255). -/
def utf8Byte (cp : ℕ) : List ℕ :=
  if cp < 128 then [cp] else [192 + cp / 64, 128 + cp % 64]

/-- UTF-8 encoding of a string given by its code points; this is what
`writeFileSync` (default encoding `utf8`) puts on disk for a JS string. -/
def utf8Encode (cps : List ℕ) : List ℕ :=
  cps.flatMap utf8Byte

/-- Bytes of the staged image file for frame `f` of a payload with
payload-level geometry `w × h` and channel stride `c`. -/
def frameFileBytes (w h c : ℕ) (f : Frame) : List ℕ :=
  utf8Encode (ppmHeader w h ++ frameBody f c)

/-- JS `s.padStart(w, ch)`. -/
def padStart (s : String) (w : ℕ) (ch : Char) : String :=
  ⟨List.replicate (w - s.data.length) ch ++ s.data⟩

/-- Staged file name `frame_${frameIndex.toString().padStart(6, '0')}.ppm`. -/
def frameName (i : ℕ) : String :=
  "frame_" ++ padStart (Nat.repr i) 6 '0' ++ ".ppm"

/-- Staging directory constant `temp_frames` (the constant `process.cwd()`
prefix added by `join` is common to all staged paths and omitted). -/
def tempDir : String := "temp_frames"

/-- Staged output container path constant `temp_video.mp4`. -/
def outputPath : String := "temp_video.mp4"

/-- Full staged path of the image for frame position `i`. -/
def framePath (i : ℕ) : String :=
  tempDir ++ "/" ++ frameName i

/-- Command string the route passes to `execAsync`. -/
def ffmpegCommand : String :=
  "ffmpeg -y -framerate 30 -i " ++ tempDir ++
    "/frame_%06d.ppm -c:v libx264 -pix_fmt yuv420p -crf 23 " ++ outputPath

/-- JS `s.includes(pat)`: some suffix of `s` has `pat` as a prefix. -/
def strIncludes (s pat : String) : Bool :=
  (List.range (s.data.length + 1)).any (fun i => pat.data.isPrefixOf (s.data.drop i))

/-- One pixel of the mock generator: the three channel values written at
`pixelIndex = (y*width + x) * channels` for frame time `time = frameIndex*0.1`.
`jsSin`/`jsCos` stand for `Math.sin`/`Math.cos`, whose floating-point values
the generator only feeds through arithmetic and `Math.floor`; the model is
parametric in them.  The values depend only on the camera class, the column
`x` and the frame index — not on `y` and not on the clock. -/
def mockPixel (jsSin jsCos : ℚ → ℚ) (front : Bool) (fi x : ℕ) : List ℚ :=
  let time : ℚ := (fi : ℚ) * (1 / 10)
  let nx : ℚ := (x : ℚ) / 320
  if front then
    [((80 + 40 * jsSin (nx * 3 + time * (2 / 10))).floor : ℤ),
     ((90 + 30 * jsCos (nx * 2 + time * (3 / 10))).floor : ℤ),
     ((100 + 25 * jsSin (nx * 4 + time * (1 / 10))).floor : ℤ)]
  else
    [((120 + 30 * jsSin (nx * 5 + time * (4 / 10))).floor : ℤ),
     ((130 + 25 * jsCos (nx * 4 + time * (3 / 10))).floor : ℤ),
     ((140 + 20 * jsSin (nx * 6 + time * (2 / 10))).floor : ℤ)]

/-- Flattened mock tensor of one frame: the `y`/`x` loops fill index
`(y*width + x) * channels` through `... + 2`, i.e. the row-major
concatenation of the pixels. -/
def mockFrameTensor (jsSin jsCos : ℚ → ℚ) (front : Bool) (fi : ℕ) : List ℚ :=
  (List.range 240).flatMap (fun _y =>
    (List.range 320).flatMap (fun x => mockPixel jsSin jsCos front fi x))

/-- Mock payload generator `generateMockTensorData` from the route source:
60 frames of 320×240×3, timestamps `Date.now() + frameIndex * 33` (the clock
reading is the explicit argument `now`), pixel pattern keyed on
`cameraName.includes('Front')`. -/
def generateMockTensorData (jsSin jsCos : ℚ → ℚ) (cameraName : String)
    (now : ℕ) : VideoTensorData :=
  let front := strIncludes cameraName "Front"
  { camera_name := cameraName
    frames := (List.range 60).map (fun fi =>
      { frame_index := fi
        timestamp := now + fi * 33
        tensor_data := mockFrameTensor jsSin jsCos front fi
        width := 320
        height := 240
        channels := 3 })
    width := 320
    height := 240
    channels := 3 }

/-- Encoded video container: the output frame rate and the image data of the
visual frames, in encoding order.  `EncodedVideo` of the spec. -/
structure Container where
  framerate : ℕ
  frames : List (List ℕ)
deriving DecidableEq

/-- Contents of a staged file: raw bytes of a frame image, or the encoded
video container. -/
inductive FileData where
  | bytes (bs : List ℕ)
  | video (c : Container)
deriving DecidableEq

/-- Filesystem state: an association list from paths to file contents
(later writes shadow earlier entries; `fsWrite` removes shadowed ones). -/
def FS : Type := List (String × FileData)

instance : DecidableEq FS := by
  unfold FS
  infer_instance

/-- Lookup the contents at a path. -/
def fsGet : FS → String → Option FileData
  | [], _ => none
  | (q, d) :: rest, p => if q = p then some d else fsGet rest p

/-- Remove every entry at a path (`unlinkSync`). -/
def fsErase : FS → String → FS
  | [], _ => []
  | (q, d) :: rest, p => if q = p then fsErase rest p else (q, d) :: fsErase rest p

/-- Write contents at a path (`writeFileSync`), replacing previous contents. -/
def fsWrite (fs : FS) (p : String) (d : FileData) : FS :=
  (p, d) :: fsErase fs p

/-- Path-existence test (`existsSync`). -/
def fsExists (fs : FS) (p : String) : Bool :=
  (fsGet fs p).isSome

/-- Staging loop of `convertTensorToVideo`: for each frame, in sequence
order, write the image file at `framePath` of its position index.  Only the
payload-level `w`, `h`, `c` and the frame's `tensor_data` are consulted. -/
def writeFrames (w h c : ℕ) : List Frame → ℕ → FS → FS
  | [], _, fs => fs
  | f :: rest, i, fs =>
    writeFrames w h c rest (i + 1)
      (fsWrite fs (framePath i) (.bytes (frameFileBytes w h c f)))

/-- Images collected by the encoder's input pattern `frame_%06d.ppm`:
consecutive staged frame files starting at index `n`, stopping at the first
missing one.  `fuel` only bounds the recursion and is instantiated with the
size of the filesystem. -/
def collectSeq (fs : FS) : ℕ → ℕ → List (List ℕ)
  | 0, _ => []
  | fuel + 1, n =>
    match fsGet fs (framePath n) with
    | some (.bytes bs) => bs :: collectSeq fs fuel (n + 1)
    | _ => []

/-- Boundary model of a successful `ffmpeg` run as configured by
`ffmpegCommand`: read the staged images in pattern order at the fixed input
frame rate 30 and produce the output container. -/
def runFFmpeg (fs : FS) : Container :=
  ⟨30, collectSeq fs fs.length 0⟩

/-- Error message of a failed encode (`EncodeError` of the spec; the source
rethrows whatever `execAsync` raised). -/
def encodeErrorMsg : String := "EncodeError"

/-- Body of the `try` block of `convertTensorToVideo`: stage all frames,
invoke the encoder (success decided by the oracle `ffmpegOk`), and on success
write and read back the output container.  Returns the result together with
the filesystem as it stands when the `finally` block is entered. -/
def convertTry (ffmpegOk : Bool) (p : VideoTensorData) (fs0 : FS) :
    Except String Container × FS :=
  let fs1 := writeFrames p.width p.height p.channels p.frames 0 fs0
  if ffmpegOk then
    let fs2 := fsWrite fs1 outputPath (.video (runFFmpeg fs1))
    match fsGet fs2 outputPath with
    | some (.video c) => (Except.ok c, fs2)
    | _ => (Except.error "ENOENT", fs2)
  else (Except.error encodeErrorMsg, fs1)

/-- Frame-deletion loop of the `finally` block: for every position index in
the full expected range, delete the staged image if it exists.  A deletion
failure (oracle `failAt`) aborts the loop — the surrounding `catch` only
logs — so the remaining iterations are skipped; the returned flag records
whether that happened. -/
def cleanupFrames (failAt : String → Bool) : ℕ → ℕ → FS → FS × Bool
  | 0, _, fs => (fs, false)
  | k + 1, i, fs =>
    if fsExists fs (framePath i) then
      if failAt (framePath i) then (fs, true)
      else cleanupFrames failAt k (i + 1) (fsErase fs (framePath i))
    else cleanupFrames failAt k (i + 1) fs

/-- Whole `finally` block: delete the staged frames for all `n` expected
indices, then delete the staged output file if present; any deletion failure
is swallowed after aborting the rest of the block. -/
def cleanup (failAt : String → Bool) (n : ℕ) (fs : FS) : FS :=
  if (cleanupFrames failAt n 0 fs).2 then (cleanupFrames failAt n 0 fs).1
  else if fsExists (cleanupFrames failAt n 0 fs).1 outputPath then
    if failAt outputPath then (cleanupFrames failAt n 0 fs).1
    else fsErase (cleanupFrames failAt n 0 fs).1 outputPath
  else (cleanupFrames failAt n 0 fs).1

instance {ε α : Type} [DecidableEq ε] [DecidableEq α] :
    DecidableEq (Except ε α) := fun a b =>
  match a, b with
  | .error e, .error f =>
    if h : e = f then isTrue (by rw [h]) else isFalse (by intro hc; cases hc; exact h rfl)
  | .error _, .ok _ => isFalse (by intro hc; cases hc)
  | .ok _, .error _ => isFalse (by intro hc; cases hc)
  | .ok x, .ok y =>
    if h : x = y then isTrue (by rw [h]) else isFalse (by intro hc; cases hc; exact h rfl)

/-- Result of one `convertTensorToVideo` call: the value returned (or error
raised) by the `try` body, and the filesystem after the `finally` block. -/
structure ConvResult where
  result : Except String Container
  fs : FS
deriving DecidableEq

/-- Function `convertTensorToVideo` of the route source: stage the frames,
run the encoder, read back the container, and unconditionally run the
cleanup block; the cleanup never alters the result. -/
def convertTensorToVideo (ffmpegOk : Bool) (failAt : String → Bool)
    (p : VideoTensorData) (fs0 : FS) : ConvResult :=
  ⟨(convertTry ffmpegOk p fs0).1,
    cleanup failAt p.frames.length (convertTry ffmpegOk p fs0).2⟩

/-- Outcome of the `fetch(url)` call in `fetchTensorData`: a transport
failure, or a response with its `ok` flag, `statusText`, and (for `ok`
responses) the result of parsing the body as the payload schema. -/
inductive FetchOutcome where
  | transport (msg : String)
  | response (ok : Bool) (statusText : String)
      (body : Except String VideoTensorData)

/-- Function `fetchTensorData` of the route source: on a non-`ok` response
throw `Failed to fetch tensor data: ${response.statusText}`; on a transport
or parse failure rethrow it; otherwise return the parsed payload. -/
def fetchTensorData : FetchOutcome → Except String VideoTensorData
  | .transport m => .error m
  | .response ok st body =>
    if ok then body else .error ("Failed to fetch tensor data: " ++ st)

/-- Response of the `POST` handler: HTTP status, the video buffer on
success, the final filesystem, and whether `convertTensorToVideo` (and with
it the encoder invocation) was reached. -/
structure PostResult where
  status : ℕ
  video : Option Container
  fs : FS
  encoderInvoked : Bool
deriving DecidableEq

/-- Handler `POST` of the route source: resolve the payload from
`tensor_url` (if supplied) or the mock generator (camera name defaulting to
`Front Camera`), convert it, and answer 200 with the video or a generic 500
JSON error. -/
def POST (tensor_url : Option String) (camera_name : Option String)
    (fetchO : FetchOutcome) (jsSin jsCos : ℚ → ℚ) (now : ℕ)
    (ffmpegOk : Bool) (failAt : String → Bool) (fs0 : FS) : PostResult :=
  let payloadE : Except String VideoTensorData :=
    match tensor_url with
    | some _ => fetchTensorData fetchO
    | none =>
      .ok (generateMockTensorData jsSin jsCos
        (camera_name.getD "Front Camera") now)
  match payloadE with
  | .error _ => ⟨500, none, fs0, false⟩
  | .ok p =>
    let r := convertTensorToVideo ffmpegOk failAt p fs0
    match r.result with
    | .ok cont => ⟨200, some cont, r.fs, true⟩
    | .error _ => ⟨500, none, r.fs, true⟩

/-! ### Lemmas about the pixel packing loop -/

theorem jsMax_eq_max (a b : ℤ) : jsMax a b = max a b := by
  unfold jsMax
  split <;> omega

theorem jsMin_eq_min (a b : ℤ) : jsMin a b = min a b := by
  unfold jsMin
  split <;> omega

theorem packSample_cast (v : ℚ) :
    (packSample v : ℤ) = max 0 (min 255 (Rat.floor v)) := by
  unfold packSample
  rw [jsMax_eq_max, jsMin_eq_min, Int.toNat_of_nonneg (le_max_left 0 _)]

theorem packSample_zero : packSample 0 = 0 := by decide

theorem packLoop_getD (data : List ℚ) (c : ℕ) (hc : 0 < c) :
    ∀ (t fuel i k : ℕ), k < 3 → data.length ≤ fuel + i →
      3 * t + k < (packLoop data c fuel i).length →
      (packLoop data c fuel i).getD (3 * t + k) 0 =
        packSample (data.getD (c * t + i + k) 0) := by
  intro t
  induction t with
  | zero =>
    intro fuel i k hk hfuel hlen
    match fuel with
    | 0 => simp [packLoop] at hlen
    | fuel + 1 =>
      rw [packLoop] at hlen ⊢
      by_cases h : i < data.length
      · simp only [if_pos h]
        interval_cases k <;> simp
      · simp [if_neg h] at hlen
  | succ t ih =>
    intro fuel i k hk hfuel hlen
    match fuel with
    | 0 => simp [packLoop] at hlen
    | fuel + 1 =>
      rw [packLoop] at hlen ⊢
      by_cases h : i < data.length
      · simp only [if_pos h] at hlen ⊢
        have harith : 3 * (t + 1) + k = (3 * t + k) + 3 := by ring
        rw [harith] at hlen ⊢
        simp only [List.length_cons] at hlen
        have hlen' : 3 * t + k < (packLoop data c fuel (i + c)).length := by omega
        have := ih fuel (i + c) k hk (by omega) hlen'
        simp only [List.getD_cons_succ]
        rw [this]
        congr 2
        ring
      · simp [if_neg h] at hlen

theorem packLoop_length (data : List ℚ) (c : ℕ) (hc : 0 < c) :
    ∀ (fuel i : ℕ), data.length ≤ fuel + i →
      (packLoop data c fuel i).length = 3 * ((data.length - i + c - 1) / c) := by
  intro fuel
  induction fuel with
  | zero =>
    intro i hfuel
    have h0 : data.length - i = 0 := by omega
    rw [packLoop, h0]
    simp [Nat.div_eq_of_lt (by omega : c - 1 < c)]
  | succ fuel ih =>
    intro i hfuel
    rw [packLoop]
    by_cases h : i < data.length
    · simp only [if_pos h, List.length_cons]
      rw [ih (i + c) (by omega)]
      have key : (data.length - i + c - 1) / c
          = (data.length - (i + c) + c - 1) / c + 1 := by
        rcases Nat.lt_or_ge (data.length - i) c with hm | hm
        · have h1 : data.length - (i + c) = 0 := by omega
          have h3 : data.length - i + c - 1 = (data.length - i - 1) + c := by omega
          rw [h1, h3, Nat.add_div_right _ hc,
            Nat.div_eq_of_lt (by omega : data.length - i - 1 < c)]
          have h4 : (0 + c - 1) / c = 0 := by
            rw [Nat.zero_add]
            exact Nat.div_eq_of_lt (by omega)
          omega
        · have h3 : data.length - i + c - 1 = (data.length - (i + c) + c - 1) + c := by
            omega
          rw [h3, Nat.add_div_right _ hc]
      rw [key]
      ring
    · simp only [if_neg h, List.length_nil]
      have h0 : data.length - i = 0 := by omega
      rw [h0]
      simp [Nat.div_eq_of_lt (by omega : c - 1 < c)]

theorem packFrom_getD (data : List ℚ) (c : ℕ) (hc : 0 < c) (t k : ℕ)
    (hk : k < 3) (hlen : 3 * t + k < (packFrom data c).length) :
    (packFrom data c).getD (3 * t + k) 0 =
      packSample (data.getD (c * t + k) 0) := by
  unfold packFrom at hlen ⊢
  rw [if_neg (by omega : ¬ c = 0)] at hlen ⊢
  have := packLoop_getD data c hc t data.length 0 k hk (by omega) hlen
  simpa using this

theorem packFrom_length (data : List ℚ) (c : ℕ) (hc : 0 < c) :
    (packFrom data c).length = 3 * ((data.length + c - 1) / c) := by
  unfold packFrom
  rw [if_neg (by omega : ¬ c = 0)]
  have := packLoop_length data c hc data.length 0 (by omega)
  simpa using this

/-! ### Basic filesystem lemmas -/

theorem fsGet_fsErase_self (fs : FS) (p : String) :
    fsGet (fsErase fs p) p = none := by
  induction fs with
  | nil => rfl
  | cons e rest ih =>
    obtain ⟨a, d⟩ := e
    by_cases h : a = p
    · simpa [fsErase, h] using ih
    · simpa [fsErase, fsGet, h] using ih

theorem fsGet_fsErase_ne (fs : FS) (p q : String) (h : q ≠ p) :
    fsGet (fsErase fs p) q = fsGet fs q := by
  have hpq : p ≠ q := fun hh => h hh.symm
  induction fs with
  | nil => rfl
  | cons e rest ih =>
    obtain ⟨a, d⟩ := e
    by_cases he : a = p
    · subst he
      simp [fsErase, fsGet, hpq, ih]
    · by_cases hq : a = q
      · subst hq
        simp [fsErase, fsGet, he]
      · simp [fsErase, fsGet, he, hq, ih]

theorem fsGet_fsWrite_self (fs : FS) (p : String) (d : FileData) :
    fsGet (fsWrite fs p d) p = some d := by
  simp [fsWrite, fsGet]

theorem fsGet_fsWrite_ne (fs : FS) (p q : String) (d : FileData) (h : q ≠ p) :
    fsGet (fsWrite fs p d) q = fsGet fs q := by
  have hpq : p ≠ q := fun hh => h hh.symm
  simp only [fsWrite, fsGet, if_neg hpq]
  exact fsGet_fsErase_ne fs p q h

theorem fsErase_of_none (fs : FS) (p : String) (h : fsGet fs p = none) :
    fsErase fs p = fs := by
  induction fs with
  | nil => rfl
  | cons e rest ih =>
    obtain ⟨a, d⟩ := e
    by_cases he : a = p
    · simp [fsGet, he] at h
    · simp only [fsGet, if_neg he] at h
      simp [fsErase, he, ih h]

theorem fsGet_none_fsErase (fs : FS) (p q : String) (h : fsGet fs p = none) :
    fsGet (fsErase fs q) p = none := by
  by_cases hpq : p = q
  · rw [hpq]
    exact fsGet_fsErase_self fs q
  · rw [fsGet_fsErase_ne fs q p hpq]
    exact h

/-! ### Claim C1 -/

/-- C1: for every payload and every frame, every sample emitted into the
staged image whose source index lies within that frame's `tensor_data` equals
`max(0, min(255, floor v))` of the value `v` read there, and an emitted
sample whose source index is beyond the array bounds is 0. -/
theorem c1_sample_clamp (p : VideoTensorData) (f : Frame) (_hf : f ∈ p.frames)
    (hc : 0 < p.channels) (t k : ℕ) (hk : k < 3)
    (hlen : 3 * t + k < (frameBody f p.channels).length) :
    (p.channels * t + k < f.tensor_data.length →
      ((frameBody f p.channels).getD (3 * t + k) 0 : ℤ) =
        max 0 (min 255
          (Rat.floor (f.tensor_data.getD (p.channels * t + k) 0)))) ∧
    (f.tensor_data.length ≤ p.channels * t + k →
      (frameBody f p.channels).getD (3 * t + k) 0 = 0) := by
  unfold frameBody at hlen ⊢
  have hmain := packFrom_getD f.tensor_data p.channels hc t k hk hlen
  constructor
  · intro _
    rw [hmain]
    exact packSample_cast _
  · intro hout
    rw [hmain, List.getD_eq_default _ _ hout]
    exact packSample_zero

/-- Concrete frame for the C1 witness: 300 clamps to 255, -5 clamps to 0,
7 stays 7. -/
def c1exFrame : Frame := ⟨0, 0, [300, -5, 7], 1, 1, 3⟩

/-- Concrete payload for the C1 witness. -/
def c1exPayload : VideoTensorData := ⟨"cam", [c1exFrame], 1, 1, 3⟩

/-- C1 witness: the clamp equation, instantiated at the first sample of a
concrete frame. -/
theorem c1_sample_clamp_witness :
    ((frameBody c1exFrame c1exPayload.channels).getD (3 * 0 + 0) 0 : ℤ) =
      max 0 (min 255
        (Rat.floor (c1exFrame.tensor_data.getD (c1exPayload.channels * 0 + 0) 0))) :=
  (c1_sample_clamp c1exPayload c1exFrame (by decide) (by decide) 0 0
    (by decide) (by decide)).1 (by decide)

/-! ### Claim C2 -/

/-- Concrete frame for the C2 counterexample: `tensor_data` holds 3 values,
one full pixel, while the payload geometry asks for 2×2×3 = 12. -/
def c2exFrame : Frame := ⟨0, 0, [1, 2, 3], 2, 2, 3⟩

/-- Concrete payload for the C2 counterexample. -/
def c2exPayload : VideoTensorData := ⟨"cam", [c2exFrame], 2, 2, 3⟩

/-- C2 counterexample: running the full conversion on this payload — one
frame whose `tensor_data` holds 3 of the 12 required values — raises no
error, and the single staged image consists of the `2 2` header followed by
exactly the 3 emitted samples `1, 2, 3`: one pixel, not the
`width*height = 4` black-filled pixels the claim states (12 samples). -/
theorem c2_counterexample :
    c2exFrame.tensor_data.length
        < c2exPayload.width * c2exPayload.height * c2exPayload.channels ∧
    (convertTensorToVideo true (fun _ => false) c2exPayload []).result
        = Except.ok ⟨30, [ppmHeader 2 2 ++ [1, 2, 3]]⟩ ∧
    (frameBody c2exFrame c2exPayload.channels).length
        ≠ 3 * (c2exPayload.width * c2exPayload.height) := by
  decide

/-- C2 (amended): for every frame whose `tensor_data` is shorter than
`width*height*channels` the encoder raises no error, but the staged raster
contains `⌈tensor_data.length / channels⌉` pixels — the trailing pixels are
omitted rather than black-filled — and a sample missing within the final
started pixel is emitted as 0. -/
theorem c2_short_tensor (p : VideoTensorData) (f : Frame) (_hf : f ∈ p.frames)
    (hc : 0 < p.channels)
    (_hshort : f.tensor_data.length < p.width * p.height * p.channels)
    (failAt : String → Bool) (fs0 : FS) :
    (∃ cont, (convertTensorToVideo true failAt p fs0).result = Except.ok cont) ∧
    (frameBody f p.channels).length
        = 3 * ((f.tensor_data.length + p.channels - 1) / p.channels) ∧
    (∀ t k, k < 3 → 3 * t + k < (frameBody f p.channels).length →
      f.tensor_data.length ≤ p.channels * t + k →
      (frameBody f p.channels).getD (3 * t + k) 0 = 0) := by
  refine ⟨?_, ?_, ?_⟩
  · refine ⟨runFFmpeg (writeFrames p.width p.height p.channels p.frames 0 fs0), ?_⟩
    unfold convertTensorToVideo convertTry
    simp [fsGet_fsWrite_self]
  · exact packFrom_length f.tensor_data p.channels hc
  · intro t k hk hlen hout
    unfold frameBody at hlen ⊢
    rw [packFrom_getD f.tensor_data p.channels hc t k hk hlen,
      List.getD_eq_default _ _ hout]
    exact packSample_zero

/-- C2 witness: instantiation of the amended claim at the concrete short
frame, with the filesystem empty. -/
theorem c2_short_tensor_witness :
    (∃ cont, (convertTensorToVideo true (fun _ => false) c2exPayload []).result
        = Except.ok cont) ∧
    (frameBody c2exFrame c2exPayload.channels).length
        = 3 * ((c2exFrame.tensor_data.length + c2exPayload.channels - 1)
            / c2exPayload.channels) ∧
    (∀ t k, k < 3 → 3 * t + k < (frameBody c2exFrame c2exPayload.channels).length →
      c2exFrame.tensor_data.length ≤ c2exPayload.channels * t + k →
      (frameBody c2exFrame c2exPayload.channels).getD (3 * t + k) 0 = 0) :=
  c2_short_tensor c2exPayload c2exFrame (by decide) (by decide) (by decide)
    (fun _ => false) []

/-! ### Claim C3 -/

/-- Concrete frame for the C3 evidence: a single pixel whose red sample is
200, a code point at or above 128. -/
def c3exFrame : Frame := ⟨0, 0, [200, 0, 0], 1, 1, 3⟩

/-- C3 (code-bug evidence): the emitted samples of this frame are 200, 0, 0 —
three samples — but the staged file holds the header followed by FOUR body
bytes, because the string is written with Node's default UTF-8 encoding and
the code point 200 becomes the two bytes 195, 136.  The staged body is hence
not one byte per emitted sample as the claim (and the P6 header the code
itself writes) requires. -/
theorem c3_utf8_body :
    frameBody c3exFrame 3 = [200, 0, 0] ∧
    frameFileBytes 1 1 3 c3exFrame = ppmHeader 1 1 ++ [195, 136, 0, 0] ∧
    (frameFileBytes 1 1 3 c3exFrame).length ≠ (ppmHeader 1 1).length + 3 := by
  decide

/-! ### Claim C4: cleanup discipline -/

theorem padStart_length (s : String) (w : ℕ) (ch : Char) :
    w ≤ (padStart s w ch).data.length := by
  simp only [padStart, List.length_append, List.length_replicate]
  omega

theorem framePath_data_length (i : ℕ) : 28 ≤ (framePath i).data.length := by
  have h := padStart_length (Nat.repr i) 6 '0'
  simp only [framePath, frameName, tempDir, String.data_append,
    List.length_append, List.length_cons, List.length_nil]
  omega

theorem framePath_ne_outputPath (i : ℕ) : framePath i ≠ outputPath := by
  intro h
  have hlen := congrArg (fun s => s.data.length) h
  have h28 := framePath_data_length i
  simp only [outputPath] at hlen
  rw [hlen] at h28
  simp at h28

theorem cleanupFrames_nofail (failAt : String → Bool)
    (hno : ∀ s, failAt s = false) :
    ∀ (k i : ℕ) (fs : FS),
      (cleanupFrames failAt k i fs).2 = false ∧
      (∀ j, i ≤ j → j < i + k →
        fsGet (cleanupFrames failAt k i fs).1 (framePath j) = none) ∧
      (∀ p, fsGet fs p = none →
        fsGet (cleanupFrames failAt k i fs).1 p = none) ∧
      fsGet (cleanupFrames failAt k i fs).1 outputPath
        = fsGet fs outputPath := by
  intro k
  induction k with
  | zero =>
    intro i fs
    refine ⟨rfl, ?_, ?_, rfl⟩
    · intro j h1 h2
      omega
    · intro p h
      exact h
  | succ k ih =>
    intro i fs
    rw [cleanupFrames]
    by_cases hex : fsExists fs (framePath i) = true
    · rw [if_pos hex, if_neg (by rw [hno (framePath i)]; exact fun hh => Bool.noConfusion hh)]
      obtain ⟨ih1, ih2, ih3, ih4⟩ := ih (i + 1) (fsErase fs (framePath i))
      refine ⟨ih1, ?_, ?_, ?_⟩
      · intro j h1 h2
        by_cases hj : j = i
        · subst hj
          exact ih3 _ (fsGet_fsErase_self fs (framePath j))
        · exact ih2 j (by omega) (by omega)
      · intro p h
        exact ih3 p (fsGet_none_fsErase fs p _ h)
      · rw [ih4, fsGet_fsErase_ne fs _ _
          (fun hh => framePath_ne_outputPath i hh.symm)]
    · rw [if_neg hex]
      obtain ⟨ih1, ih2, ih3, ih4⟩ := ih (i + 1) fs
      have hnone : fsGet fs (framePath i) = none := by
        simp only [fsExists, Option.isSome] at hex
        cases hget : fsGet fs (framePath i) with
        | none => rfl
        | some d =>
          rw [hget] at hex
          simp at hex
      refine ⟨ih1, ?_, ih3, ih4⟩
      intro j h1 h2
      by_cases hj : j = i
      · subst hj
        exact ih3 _ hnone
      · exact ih2 j (by omega) (by omega)

theorem cleanup_nofail (failAt : String → Bool) (hno : ∀ s, failAt s = false)
    (n : ℕ) (fs : FS) :
    (∀ j, j < n → fsGet (cleanup failAt n fs) (framePath j) = none) ∧
    fsGet (cleanup failAt n fs) outputPath = none := by
  obtain ⟨h1, h2, _h3, _h4⟩ := cleanupFrames_nofail failAt hno n 0 fs
  unfold cleanup
  rw [h1]
  simp only [Bool.false_eq_true, if_false]
  by_cases hex : fsExists (cleanupFrames failAt n 0 fs).1 outputPath = true
  · rw [if_pos hex, if_neg (by rw [hno outputPath]; exact fun hh => Bool.noConfusion hh)]
    constructor
    · intro j hj
      rw [fsGet_fsErase_ne _ _ _ (framePath_ne_outputPath j)]
      exact h2 j (by omega) (by omega)
    · exact fsGet_fsErase_self _ _
  · rw [if_neg hex]
    constructor
    · intro j hj
      exact h2 j (by omega) (by omega)
    · simp only [fsExists, Option.isSome] at hex
      cases hget : fsGet (cleanupFrames failAt n 0 fs).1 outputPath with
      | none => rfl
      | some d =>
        rw [hget] at hex
        simp at hex

/-- C4: on every exit path of `convertTensorToVideo` the cleanup block runs:
its outcome never alters the primary result (a cleanup failure is swallowed,
so the result is the same under any deletion-failure oracle), and when no
deletion fails, every staged per-frame image in the full expected index range
and the staged output file are gone afterwards (deleting an absent file is a
no-op — the existence guard makes the loop total). -/
theorem c4_cleanup_discipline (ffmpegOk : Bool) (failAt failAt2 : String → Bool)
    (p : VideoTensorData) (fs0 : FS) (hno : ∀ s, failAt s = false) :
    (convertTensorToVideo ffmpegOk failAt p fs0).result
        = (convertTensorToVideo ffmpegOk failAt2 p fs0).result ∧
    (∀ i, i < p.frames.length →
      fsGet (convertTensorToVideo ffmpegOk failAt p fs0).fs (framePath i) = none) ∧
    fsGet (convertTensorToVideo ffmpegOk failAt p fs0).fs outputPath = none := by
  obtain ⟨h1, h2⟩ := cleanup_nofail failAt hno p.frames.length
    (convertTry ffmpegOk p fs0).2
  exact ⟨rfl, h1, h2⟩

/-- Concrete payload for the C4 witness. -/
def c4exPayload : VideoTensorData := ⟨"cam", [⟨0, 0, [9, 9, 9], 1, 1, 3⟩], 1, 1, 3⟩

/-- C4 witness: the cleanup guarantees, instantiated at a concrete payload,
a concrete pre-existing filesystem, and the never-failing deletion oracle,
compared against an always-failing oracle on the result side. -/
theorem c4_cleanup_discipline_witness :
    (convertTensorToVideo true (fun _ => false) c4exPayload
        [(outputPath, FileData.bytes [1])]).result
      = (convertTensorToVideo true (fun _ => true) c4exPayload
        [(outputPath, FileData.bytes [1])]).result ∧
    (∀ i, i < c4exPayload.frames.length →
      fsGet (convertTensorToVideo true (fun _ => false) c4exPayload
        [(outputPath, FileData.bytes [1])]).fs (framePath i) = none) ∧
    fsGet (convertTensorToVideo true (fun _ => false) c4exPayload
        [(outputPath, FileData.bytes [1])]).fs outputPath = none :=
  c4_cleanup_discipline true (fun _ => false) (fun _ => true) c4exPayload
    [(outputPath, FileData.bytes [1])] (fun _ => rfl)

/-! ### Claim C6: fetch failures -/

/-- C6: when a `tensor_url` is supplied and the retrieval yields a transport
failure or a non-success response, `fetchTensorData` fails — for a non-success
response with the `SourceFetchError` message carrying the response's
status text — and the `POST` pipeline answers 500 with the filesystem
untouched and the encoder never invoked (no staged files are created). -/
theorem c6_fetch_failure (url : String) (cam : Option String) (o : FetchOutcome)
    (jsSin jsCos : ℚ → ℚ) (now : ℕ) (ffmpegOk : Bool) (failAt : String → Bool)
    (fs0 : FS)
    (h : (∃ m, o = .transport m) ∨ ∃ st b, o = .response false st b) :
    (∃ e, fetchTensorData o = Except.error e) ∧
    (∀ st b, o = .response false st b →
      fetchTensorData o = Except.error ("Failed to fetch tensor data: " ++ st)) ∧
    POST (some url) cam o jsSin jsCos now ffmpegOk failAt fs0
      = ⟨500, none, fs0, false⟩ := by
  have herr : ∃ e, fetchTensorData o = Except.error e := by
    rcases h with ⟨m, rfl⟩ | ⟨st, b, rfl⟩
    · exact ⟨m, rfl⟩
    · exact ⟨"Failed to fetch tensor data: " ++ st, by simp [fetchTensorData]⟩
  obtain ⟨e, he⟩ := herr
  refine ⟨⟨e, he⟩, ?_, ?_⟩
  · intro st b hob
    subst hob
    simp [fetchTensorData]
  · simp only [POST, he]

/-- C6 witness: a 404-style response at a concrete URL. -/
theorem c6_fetch_failure_witness :
    (∃ e, fetchTensorData (.response false "Not Found" (.error "nobody"))
        = Except.error e) ∧
    (∀ st b, FetchOutcome.response false "Not Found" (.error "nobody")
          = .response false st b →
      fetchTensorData (.response false "Not Found" (.error "nobody"))
        = Except.error ("Failed to fetch tensor data: " ++ st)) ∧
    POST (some "http://example.com/tensor") none
        (.response false "Not Found" (.error "nobody"))
        (fun _ => 0) (fun _ => 0) 0 true (fun _ => false) []
      = ⟨500, none, [], false⟩ :=
  c6_fetch_failure "http://example.com/tensor" none
    (.response false "Not Found" (.error "nobody"))
    (fun _ => 0) (fun _ => 0) 0 true (fun _ => false) []
    (Or.inr ⟨"Not Found", Except.error "nobody", rfl⟩)

/-! ### Claim C9: only payload-level geometry is honoured -/

theorem frameFileBytes_congr (w h c : ℕ) (f g : Frame)
    (ht : f.tensor_data = g.tensor_data) :
    frameFileBytes w h c f = frameFileBytes w h c g := by
  unfold frameFileBytes frameBody
  rw [ht]

theorem writeFrames_congr (w h c : ℕ) {l₁ l₂ : List Frame}
    (hf : List.Forall₂ (fun f g => f.tensor_data = g.tensor_data) l₁ l₂) :
    ∀ (i : ℕ) (fs : FS),
      writeFrames w h c l₁ i fs = writeFrames w h c l₂ i fs := by
  induction hf with
  | nil =>
    intro i fs
    rfl
  | cons hfg _hrest ih =>
    intro i fs
    simp only [writeFrames]
    rw [frameFileBytes_congr w h c _ _ hfg]
    exact ih (i + 1) _

/-- C9: the encoder honours only the payload-level width, height and channel
count: the per-frame `width`/`height`/`channels` fields are never consulted,
so two payloads that differ only in those fields stage identical image files
and drive the whole conversion (and hence the constant encoder invocation)
identically; and each emitted pixel's samples are read starting at
`channels * pixel_index` with the payload-level channel count as stride. -/
theorem c9_payload_geometry_only (p₁ p₂ : VideoTensorData) (ffmpegOk : Bool)
    (failAt : String → Bool) (fs0 : FS)
    (_hn : p₁.camera_name = p₂.camera_name) (hw : p₁.width = p₂.width)
    (hh : p₁.height = p₂.height) (hc : p₁.channels = p₂.channels)
    (hf : List.Forall₂ (fun f g => f.frame_index = g.frame_index ∧
        f.timestamp = g.timestamp ∧ f.tensor_data = g.tensor_data)
      p₁.frames p₂.frames) :
    writeFrames p₁.width p₁.height p₁.channels p₁.frames 0 fs0
        = writeFrames p₂.width p₂.height p₂.channels p₂.frames 0 fs0 ∧
    convertTensorToVideo ffmpegOk failAt p₁ fs0
        = convertTensorToVideo ffmpegOk failAt p₂ fs0 ∧
    (∀ f, f ∈ p₁.frames → ∀ t k, k < 3 → 0 < p₁.channels →
      3 * t + k < (frameBody f p₁.channels).length →
      (frameBody f p₁.channels).getD (3 * t + k) 0 =
        packSample (f.tensor_data.getD (p₁.channels * t + k) 0)) := by
  have ht : List.Forall₂ (fun f g => f.tensor_data = g.tensor_data)
      p₁.frames p₂.frames :=
    List.Forall₂.imp (fun _ _ hab => hab.2.2) hf
  have hwf : writeFrames p₁.width p₁.height p₁.channels p₁.frames 0 fs0
      = writeFrames p₂.width p₂.height p₂.channels p₂.frames 0 fs0 := by
    rw [hw, hh, hc]
    exact writeFrames_congr p₂.width p₂.height p₂.channels ht 0 fs0
  refine ⟨hwf, ?_, ?_⟩
  · unfold convertTensorToVideo convertTry
    rw [hwf, ht.length_eq]
  · intro f _hmem t k hk hcpos hlen
    unfold frameBody at hlen ⊢
    exact packFrom_getD f.tensor_data p₁.channels hcpos t k hk hlen

/-- Concrete first payload for the C9 witness. -/
def c9exPayload1 : VideoTensorData := ⟨"cam", [⟨0, 5, [1, 2, 3], 9, 9, 9⟩], 1, 1, 3⟩

/-- Concrete second payload for the C9 witness: same except for the
per-frame geometry fields. -/
def c9exPayload2 : VideoTensorData := ⟨"cam", [⟨0, 5, [1, 2, 3], 7, 8, 0⟩], 1, 1, 3⟩

/-- C9 witness: the non-interference conclusion at two concrete payloads
differing only in the per-frame geometry fields. -/
theorem c9_payload_geometry_only_witness :
    writeFrames c9exPayload1.width c9exPayload1.height c9exPayload1.channels
        c9exPayload1.frames 0 []
      = writeFrames c9exPayload2.width c9exPayload2.height c9exPayload2.channels
        c9exPayload2.frames 0 [] ∧
    convertTensorToVideo true (fun _ => false) c9exPayload1 []
      = convertTensorToVideo true (fun _ => false) c9exPayload2 [] ∧
    (∀ f, f ∈ c9exPayload1.frames → ∀ t k, k < 3 → 0 < c9exPayload1.channels →
      3 * t + k < (frameBody f c9exPayload1.channels).length →
      (frameBody f c9exPayload1.channels).getD (3 * t + k) 0 =
        packSample (f.tensor_data.getD (c9exPayload1.channels * t + k) 0)) :=
  c9_payload_geometry_only c9exPayload1 c9exPayload2 true (fun _ => false) []
    rfl rfl rfl rfl (List.Forall₂.cons ⟨rfl, rfl, rfl⟩ List.Forall₂.nil)

/-! ### Claims C8 and C10: the mock generator -/

/-- Decimal digit characters of `n`, most significant digit first; the
reference function against which core's fuelled `Nat.toDigitsCore` is
characterised. -/
def decChars (n : ℕ) : List Char :=
  if n < 10 then [Nat.digitChar n]
  else decChars (n / 10) ++ [Nat.digitChar (n % 10)]
termination_by n
decreasing_by exact Nat.div_lt_self (by omega) (by omega)

theorem toDigitsCore_eq_decChars :
    ∀ (fuel n : ℕ) (ds : List Char), n < fuel →
      Nat.toDigitsCore 10 fuel n ds = decChars n ++ ds := by
  intro fuel
  induction fuel with
  | zero =>
    intro n ds h
    omega
  | succ fuel ih =>
    intro n ds h
    rw [Nat.toDigitsCore]
    by_cases h0 : n / 10 = 0
    · have hn : n < 10 := by omega
      rw [if_pos h0, decChars, if_pos hn, Nat.mod_eq_of_lt hn]
      rfl
    · have hn : ¬ n < 10 := by omega
      have hsplit : decChars n = decChars (n / 10) ++ [Nat.digitChar (n % 10)] := by
        rw [decChars, if_neg hn]
      rw [if_neg h0, ih (n / 10) _ (by omega), hsplit, List.append_assoc]
      rfl

theorem repr_data (n : ℕ) : (Nat.repr n).data = decChars n := by
  show (Nat.toDigits 10 n).asString.data = decChars n
  rw [Nat.toDigits, toDigitsCore_eq_decChars (n + 1) n [] (by omega)]
  simp [List.asString]

theorem digitChar_toNat : ∀ d, d < 10 → (Nat.digitChar d).toNat = 48 + d := by
  decide

theorem decChars_digits (n : ℕ) :
    ∀ ch ∈ decChars n, 48 ≤ ch.toNat ∧ ch.toNat ≤ 57 := by
  induction n using Nat.strong_induction_on with
  | _ n ih =>
    by_cases h : n < 10
    · rw [decChars, if_pos h]
      intro ch hch
      rw [List.mem_singleton] at hch
      subst hch
      rw [digitChar_toNat n h]
      omega
    · rw [decChars, if_neg h]
      intro ch hch
      rw [List.mem_append] at hch
      rcases hch with hch | hch
      · exact ih (n / 10) (Nat.div_lt_self (by omega) (by omega)) ch hch
      · rw [List.mem_singleton] at hch
        subst hch
        rw [digitChar_toNat (n % 10) (Nat.mod_lt n (by omega))]
        have := Nat.mod_lt n (show 0 < 10 by omega)
        omega

/-- Numeric value of a digit character. -/
def chVal (ch : Char) : ℕ := ch.toNat - 48

/-- Value denoted by a digit string, most significant digit first. -/
def strVal : List Char → ℕ
  | [] => 0
  | ch :: rest => chVal ch * 10 ^ rest.length + strVal rest

theorem strVal_append_singleton (l : List Char) (ch : Char) :
    strVal (l ++ [ch]) = 10 * strVal l + chVal ch := by
  induction l with
  | nil =>
    simp [strVal]
  | cons c cs ih =>
    simp only [List.cons_append, strVal, List.append_eq] at *
    rw [ih]
    simp only [List.length_append, List.length_singleton, pow_succ]
    ring

theorem strVal_decChars (n : ℕ) : strVal (decChars n) = n := by
  induction n using Nat.strong_induction_on with
  | _ n ih =>
    by_cases h : n < 10
    · rw [decChars, if_pos h]
      show chVal (Nat.digitChar n) * 10 ^ 0 + 0 = n
      have := digitChar_toNat n h
      simp only [chVal, this]
      omega
    · rw [decChars, if_neg h, strVal_append_singleton,
        ih (n / 10) (Nat.div_lt_self (by omega) (by omega))]
      have h10 := digitChar_toNat (n % 10) (Nat.mod_lt n (by omega))
      simp only [chVal, h10]
      omega

theorem strVal_lt_pow (l : List Char)
    (hd : ∀ ch ∈ l, 48 ≤ ch.toNat ∧ ch.toNat ≤ 57) :
    strVal l < 10 ^ l.length := by
  induction l with
  | nil =>
    simp [strVal]
  | cons c cs ih =>
    have hc := hd c (List.mem_cons_self c cs)
    have hcs := ih (fun ch hch => hd ch (List.mem_cons_of_mem c hch))
    have hv : chVal c ≤ 9 := by
      simp only [chVal]
      omega
    simp only [strVal, List.length_cons, pow_succ]
    calc chVal c * 10 ^ cs.length + strVal cs
        ≤ 9 * 10 ^ cs.length + strVal cs := by
          have := Nat.mul_le_mul_right (10 ^ cs.length) hv
          omega
      _ < 9 * 10 ^ cs.length + 10 ^ cs.length := by omega
      _ = 10 ^ cs.length * 10 := by ring
      _ ≤ 10 ^ cs.length * 10 := le_refl _

theorem decChars_length_le (k : ℕ) (hk : 1 ≤ k) :
    ∀ n, n < 10 ^ k → (decChars n).length ≤ k := by
  induction k with
  | zero => omega
  | succ k ih =>
    intro n hn
    by_cases h : n < 10
    · rw [decChars, if_pos h]
      simp
    · have hk1 : 1 ≤ k := by
        by_contra hcon
        have : k = 0 := by omega
        subst this
        simp at hn
        omega
      rw [decChars, if_neg h]
      have hdiv : n / 10 < 10 ^ k := by
        rw [Nat.div_lt_iff_lt_mul (by omega : 0 < 10)]
        calc n < 10 ^ (k + 1) := hn
          _ = 10 ^ k * 10 := by ring
      have := ih hk1 (n / 10) hdiv
      simp only [List.length_append, List.length_singleton]
      omega

theorem strVal_replicate_zero (m : ℕ) (l : List Char) :
    strVal (List.replicate m '0' ++ l) = strVal l := by
  induction m with
  | zero => rfl
  | succ m ih =>
    have h0 : chVal '0' = 0 := rfl
    simp only [List.replicate_succ, List.cons_append, strVal, List.append_eq,
      ih, h0]
    omega

/-! ### Padded filename values -/

theorem padStart_repr_data (i : ℕ) :
    (padStart (Nat.repr i) 6 '0').data
      = List.replicate (6 - (decChars i).length) '0' ++ decChars i := by
  simp [padStart, repr_data]

theorem padStart_repr_strVal (i : ℕ) :
    strVal (padStart (Nat.repr i) 6 '0').data = i := by
  rw [padStart_repr_data, strVal_replicate_zero, strVal_decChars]

theorem padStart_repr_digits (i : ℕ) :
    ∀ ch ∈ (padStart (Nat.repr i) 6 '0').data,
      48 ≤ ch.toNat ∧ ch.toNat ≤ 57 := by
  rw [padStart_repr_data]
  intro ch hch
  rw [List.mem_append] at hch
  rcases hch with hch | hch
  · have := List.eq_of_mem_replicate hch
    subst this
    exact ⟨by decide, by decide⟩
  · exact decChars_digits i ch hch

theorem padStart_repr_length (i : ℕ) (hi : i < 10 ^ 6) :
    (padStart (Nat.repr i) 6 '0').data.length = 6 := by
  have hle := decChars_length_le 6 (by omega) i hi
  rw [padStart_repr_data]
  simp only [List.length_append, List.length_replicate]
  omega

/-! ### Lexicographic comparison of digit strings -/

theorem char_lt_iff (a b : Char) : a < b ↔ a.toNat < b.toNat := Iff.rfl

theorem char_eq_of_toNat_eq {a b : Char} (h : a.toNat = b.toNat) : a = b :=
  Char.ext (UInt32.ext h)

theorem list_char_lt_irrefl : ∀ l : List Char, ¬ l < l := by
  intro l
  induction l with
  | nil => exact nofun
  | cons c cs ih =>
    intro h
    cases h with
    | cons htail => exact ih htail
    | rel hrel => exact Nat.lt_irrefl _ ((char_lt_iff c c).mp hrel)

theorem list_lt_append_left :
    ∀ (p u v : List Char), (p ++ u < p ++ v) ↔ (u < v) := by
  intro p
  induction p with
  | nil =>
    intro u v
    exact Iff.rfl
  | cons c cs ih =>
    intro u v
    simp only [List.cons_append]
    constructor
    · intro h
      cases h with
      | cons htail => exact (ih u v).mp htail
      | rel hrel => exact absurd hrel (fun hlt => Nat.lt_irrefl _ ((char_lt_iff c c).mp hlt))
    · intro h
      exact List.Lex.cons ((ih u v).mpr h)

theorem list_lt_digits (s : List Char) :
    ∀ (x y : List Char),
      (∀ ch ∈ x, 48 ≤ ch.toNat ∧ ch.toNat ≤ 57) →
      (∀ ch ∈ y, 48 ≤ ch.toNat ∧ ch.toNat ≤ 57) →
      x.length = y.length →
      ((x ++ s < y ++ s) ↔ strVal x < strVal y) := by
  intro x
  induction x with
  | nil =>
    intro y _ _ hlen
    have hy : y = [] := List.eq_nil_of_length_eq_zero hlen.symm
    subst hy
    simp only [List.nil_append, strVal]
    exact iff_of_false (list_char_lt_irrefl s) (by omega)
  | cons a as ih =>
    intro y hx hy hlen
    match y with
    | [] => simp at hlen
    | b :: bs =>
      simp only [List.length_cons] at hlen
      have hlen2 : as.length = bs.length := by omega
      have has := fun ch hch => hx ch (List.mem_cons_of_mem a hch)
      have hbs := fun ch hch => hy ch (List.mem_cons_of_mem b hch)
      have hbound_as := strVal_lt_pow as has
      have hbound_bs := strVal_lt_pow bs hbs
      simp only [List.cons_append, strVal]
      rcases Nat.lt_trichotomy a.toNat b.toNat with hab | hab | hab
      · have hcv : chVal a + 1 ≤ chVal b := by
          have ha := hx a (List.mem_cons_self a as)
          simp only [chVal]
          omega
        refine iff_of_true (List.Lex.rel ((char_lt_iff a b).mpr hab)) ?_
        have hstep : (chVal a + 1) * 10 ^ as.length ≤ chVal b * 10 ^ as.length :=
          Nat.mul_le_mul_right _ hcv
        have hsplit : (chVal a + 1) * 10 ^ as.length
            = chVal a * 10 ^ as.length + 10 ^ as.length := by ring
        rw [hlen2] at hstep hsplit hbound_as
        rw [hlen2]
        omega
      · have hsame : a = b := char_eq_of_toNat_eq hab
        subst hsame
        have hval : (chVal a * 10 ^ as.length + strVal as
            < chVal a * 10 ^ bs.length + strVal bs) ↔ strVal as < strVal bs := by
          rw [hlen2]
          omega
        rw [hval]
        constructor
        · intro h
          cases h with
          | cons htail => exact (ih bs has hbs hlen2).mp htail
          | rel hrel => exact absurd hrel (fun hlt => Nat.lt_irrefl _ ((char_lt_iff a a).mp hlt))
        · intro h
          exact List.Lex.cons ((ih bs has hbs hlen2).mpr h)
      · have hcv : chVal b + 1 ≤ chVal a := by
          have hb := hy b (List.mem_cons_self b bs)
          simp only [chVal]
          omega
        refine iff_of_false ?_ ?_
        · intro h
          cases h with
          | cons htail => exact Nat.lt_irrefl _ hab
          | rel hrel => exact Nat.lt_irrefl _ (Nat.lt_trans ((char_lt_iff a b).mp hrel) hab)
        · intro h
          have hstep : (chVal b + 1) * 10 ^ bs.length ≤ chVal a * 10 ^ bs.length :=
            Nat.mul_le_mul_right _ hcv
          have hsplit : (chVal b + 1) * 10 ^ bs.length
              = chVal b * 10 ^ bs.length + 10 ^ bs.length := by ring
          rw [hlen2] at h hbound_as
          omega

/-! ### Claim C7: filename ordering -/

theorem frameName_data (i : ℕ) :
    (frameName i).data
      = "frame_".data ++ ((padStart (Nat.repr i) 6 '0').data ++ ".ppm".data) := by
  simp [frameName, String.data_append]

/-- C7 counterexample: at frame indices 999999 and 1000000 the zero-padding
width (6) is exhausted: index 999999 precedes 1000000 but its staged filename
`frame_999999.ppm` does not lexically precede `frame_1000000.ppm`. -/
theorem c7_counterexample :
    999999 < 1000000 ∧ ¬ (frameName 999999 < frameName 1000000) := by
  refine ⟨by omega, ?_⟩
  rw [String.lt_iff_toList_lt]
  decide

/-- C7 (amended): for frame indices below `10^6` — which covers every payload
with at most `10^6` frames, in particular `N ≥ 1000` — the staged filenames
are deterministically derived zero-padded fixed-width names whose lexical
order coincides with the index order; beyond `10^6` the fixed width is
exceeded and the equivalence fails. -/
theorem c7_filename_order (i j : ℕ) (hi : i < 10 ^ 6) (hj : j < 10 ^ 6) :
    i < j ↔ frameName i < frameName j := by
  rw [String.lt_iff_toList_lt]
  show i < j ↔ (frameName i).data < (frameName j).data
  rw [frameName_data, frameName_data,
    list_lt_append_left "frame_".data _ _,
    list_lt_digits ".ppm".data _ _ (padStart_repr_digits i)
      (padStart_repr_digits j)
      (by rw [padStart_repr_length i hi, padStart_repr_length j hj]),
    padStart_repr_strVal, padStart_repr_strVal]

/-- C7 witness: index order and filename order agree at the concrete indices
999 and 1000 (a sequence of at least 1000 frames). -/
theorem c7_filename_order_witness : frameName 999 < frameName 1000 :=
  (c7_filename_order 999 1000 (by norm_num) (by norm_num)).mp (by omega)

/-! ### Claim C5: container contents -/

theorem framePath_inj {i j : ℕ} (h : framePath i = framePath j) : i = j := by
  have hd := congrArg String.data h
  simp only [framePath, frameName, String.data_append, List.append_assoc] at hd
  have h1 := List.append_cancel_left hd
  have h2 := List.append_cancel_left h1
  have h3 := List.append_cancel_left h2
  have h4 := List.append_cancel_right h3
  have h5 := congrArg strVal h4
  rwa [padStart_repr_strVal, padStart_repr_strVal] at h5

theorem writeFrames_get_other (w h c : ℕ) :
    ∀ (fr : List Frame) (i0 : ℕ) (fs : FS) (p : String),
      (∀ k, k < fr.length → p ≠ framePath (i0 + k)) →
      fsGet (writeFrames w h c fr i0 fs) p = fsGet fs p := by
  intro fr
  induction fr with
  | nil =>
    intro i0 fs p _
    rfl
  | cons f rest ih =>
    intro i0 fs p hp
    simp only [writeFrames]
    rw [ih (i0 + 1) _ p (fun k hk => by
      have := hp (k + 1) (by simp only [List.length_cons]; omega)
      rwa [show i0 + (k + 1) = i0 + 1 + k by omega] at this)]
    exact fsGet_fsWrite_ne _ _ _ _ (by
      have := hp 0 (by simp only [List.length_cons]; omega)
      rwa [Nat.add_zero] at this)

theorem writeFrames_get_at (w h c : ℕ) :
    ∀ (fr : List Frame) (i0 : ℕ) (fs : FS) (k : ℕ), k < fr.length →
      fsGet (writeFrames w h c fr i0 fs) (framePath (i0 + k))
        = some (.bytes (frameFileBytes w h c (fr.getD k default))) := by
  intro fr
  induction fr with
  | nil =>
    intro i0 fs k hk
    simp at hk
  | cons f rest ih =>
    intro i0 fs k hk
    match k with
    | 0 =>
      simp only [writeFrames, Nat.add_zero, List.getD_cons_zero]
      rw [writeFrames_get_other w h c rest (i0 + 1) _ (framePath i0)
        (fun k _ heq => by
          have := framePath_inj heq
          omega)]
      exact fsGet_fsWrite_self _ _ _
    | k + 1 =>
      simp only [writeFrames, List.getD_cons_succ]
      rw [show i0 + (k + 1) = i0 + 1 + k by omega]
      exact ih (i0 + 1) _ k (by simp only [List.length_cons] at hk; omega)

theorem writeFrames_length (w h c : ℕ) :
    ∀ (fr : List Frame) (i0 : ℕ) (fs : FS),
      (∀ k, k < fr.length → fsGet fs (framePath (i0 + k)) = none) →
      (writeFrames w h c fr i0 fs).length = fs.length + fr.length := by
  intro fr
  induction fr with
  | nil =>
    intro i0 fs _
    simp [writeFrames]
  | cons f rest ih =>
    intro i0 fs hnone
    have h0 : fsGet fs (framePath i0) = none := by
      have := hnone 0 (by simp only [List.length_cons]; omega)
      rwa [Nat.add_zero] at this
    have hw : (fsWrite fs (framePath i0)
        (.bytes (frameFileBytes w h c f))).length = fs.length + 1 := by
      simp only [fsWrite, List.length_cons, fsErase_of_none fs _ h0]
    simp only [writeFrames]
    rw [ih (i0 + 1) _ (fun k hk => by
      rw [fsGet_fsWrite_ne _ _ _ _ (fun heq => by
        have := framePath_inj heq
        omega)]
      have := hnone (k + 1) (by simp only [List.length_cons]; omega)
      rwa [show i0 + (k + 1) = i0 + 1 + k by omega] at this)]
    rw [hw]
    simp only [List.length_cons]
    omega

theorem collectSeq_run (fs : FS) :
    ∀ (m : ℕ) (g : ℕ → List ℕ) (n fuel : ℕ), m ≤ fuel →
      (∀ k, k < m → fsGet fs (framePath (n + k)) = some (.bytes (g k))) →
      fsGet fs (framePath (n + m)) = none →
      collectSeq fs fuel n = (List.range m).map g := by
  intro m
  induction m with
  | zero =>
    intro g n fuel _ _ hnone
    rw [Nat.add_zero] at hnone
    match fuel with
    | 0 => rfl
    | fuel + 1 =>
      rw [collectSeq, hnone]
      rfl
  | succ m ih =>
    intro g n fuel hfuel hsome hnone
    match fuel with
    | 0 => omega
    | fuel + 1 =>
      have h0 : fsGet fs (framePath n) = some (.bytes (g 0)) := by
        have := hsome 0 (by omega)
        rwa [Nat.add_zero] at this
      rw [collectSeq, h0]
      rw [ih (fun k => g (k + 1)) (n + 1) fuel (by omega)
        (fun k hk => by
          have := hsome (k + 1) (by omega)
          rwa [show n + (k + 1) = n + 1 + k by omega] at this)
        (by
          have := hnone
          rwa [show n + (m + 1) = n + 1 + m by omega] at this)]
      rw [List.range_succ_eq_map, List.map_cons, List.map_map]
      rfl

theorem range_map_getD (fr : List Frame) (imgf : Frame → List ℕ) :
    (List.range fr.length).map (fun k => imgf (fr.getD k default))
      = fr.map imgf := by
  induction fr with
  | nil => rfl
  | cons f rest ih =>
    rw [List.length_cons, List.range_succ_eq_map, List.map_cons,
      List.map_map, List.map_cons, List.getD_cons_zero]
    have hcomp : List.map ((fun k => imgf ((f :: rest).getD k default)) ∘ Nat.succ)
        (List.range rest.length)
        = List.map (fun k => imgf (rest.getD k default)) (List.range rest.length) := by
      apply List.map_congr_left
      intro k _
      simp [Function.comp, List.getD_cons_succ]
    rw [hcomp, ih]

/-- C5 (amended): for every payload (with a positive channel count and a
staging area clean of stale frame files) the encoder either fails or
produces a container that holds exactly one visual frame per payload frame,
in the order the frames appear in the payload's `frames` sequence — not
sorted by the `frame_index` field, which is never consulted — at the fixed
output frame rate of 30 fps. -/
theorem c5_container (p : VideoTensorData) (failAt : String → Bool) (fs0 : FS)
    (ffmpegOk : Bool) (_hc : 0 < p.channels)
    (hclean : ∀ i, fsGet fs0 (framePath i) = none) :
    (∃ e, (convertTensorToVideo ffmpegOk failAt p fs0).result
        = Except.error e) ∨
    (∃ cont, (convertTensorToVideo ffmpegOk failAt p fs0).result
        = Except.ok cont ∧
      cont.framerate = 30 ∧ cont.frames.length = p.frames.length ∧
      cont.frames
        = p.frames.map (frameFileBytes p.width p.height p.channels)) := by
  cases ffmpegOk with
  | false => exact Or.inl ⟨encodeErrorMsg, rfl⟩
  | true =>
    have hlen : (writeFrames p.width p.height p.channels p.frames 0 fs0).length
        = fs0.length + p.frames.length :=
      writeFrames_length p.width p.height p.channels p.frames 0 fs0
        (fun k _ => hclean (0 + k))
    have hrun : collectSeq (writeFrames p.width p.height p.channels p.frames 0 fs0)
        (writeFrames p.width p.height p.channels p.frames 0 fs0).length 0
        = (List.range p.frames.length).map (fun k =>
            frameFileBytes p.width p.height p.channels
              (p.frames.getD k default)) := by
      apply collectSeq_run _ p.frames.length _ 0 _ (by omega)
      · intro k hk
        exact writeFrames_get_at p.width p.height p.channels p.frames 0 fs0 k hk
      · rw [writeFrames_get_other p.width p.height p.channels p.frames 0 fs0 _
          (fun k hk heq => by
            have := framePath_inj heq
            omega)]
        exact hclean _
    have hframes : (runFFmpeg (writeFrames p.width p.height p.channels
        p.frames 0 fs0)).frames
        = p.frames.map (frameFileBytes p.width p.height p.channels) := by
      show collectSeq _ _ 0 = _
      rw [hrun, range_map_getD]
    refine Or.inr ⟨runFFmpeg (writeFrames p.width p.height p.channels
      p.frames 0 fs0), ?_, rfl, ?_, hframes⟩
    · show (convertTry true p fs0).1 = _
      simp only [convertTry, if_true, fsGet_fsWrite_self]
    · rw [hframes, List.length_map]

/-- Frame with `frame_index` 1 placed first in the C5 counterexample
payload. -/
def c5exFrameA : Frame := ⟨1, 0, [255, 255, 255], 1, 1, 3⟩

/-- Frame with `frame_index` 0 placed second in the C5 counterexample
payload. -/
def c5exFrameB : Frame := ⟨0, 0, [0, 0, 0], 1, 1, 3⟩

/-- C5 counterexample payload: frames appear in the sequence out of
`frame_index` order. -/
def c5exPayload : VideoTensorData := ⟨"cam", [c5exFrameA, c5exFrameB], 1, 1, 3⟩

/-- C5 counterexample: for this payload, whose frames carry `frame_index` 1
then 0, the encode succeeds and the container holds the images in payload
sequence order — the white image of the `frame_index = 1` frame first — and
the two images differ, so the container is not in `frame_index` order. -/
theorem c5_counterexample :
    (convertTensorToVideo true (fun _ => false) c5exPayload []).result
      = Except.ok ⟨30, [frameFileBytes 1 1 3 c5exFrameA,
          frameFileBytes 1 1 3 c5exFrameB]⟩ ∧
    c5exFrameA.frame_index = 1 ∧ c5exFrameB.frame_index = 0 ∧
    frameFileBytes 1 1 3 c5exFrameA ≠ frameFileBytes 1 1 3 c5exFrameB := by
  decide

/-- C5 witness: the amended container property at the concrete two-frame
payload and an empty staging area. -/
theorem c5_container_witness :
    (∃ e, (convertTensorToVideo true (fun _ => false) c5exPayload []).result
        = Except.error e) ∨
    (∃ cont, (convertTensorToVideo true (fun _ => false) c5exPayload []).result
        = Except.ok cont ∧
      cont.framerate = 30 ∧ cont.frames.length = c5exPayload.frames.length ∧
      cont.frames = c5exPayload.frames.map
        (frameFileBytes c5exPayload.width c5exPayload.height
          c5exPayload.channels)) :=
  c5_container c5exPayload (fun _ => false) [] true (by decide)
    (fun _ => rfl)

end VideoRoute
